import Mathlib

/-!
Verification of the media-player coordination core in
frontend-tools/video-js/src/components/video-player/VideoJSPlayer.jsx.

The JavaScript source is shallowly embedded: JS numbers are modelled as
rationals (no NaN/Infinity; the model maps a non-finite parse to `none`),
JS strings as Lean strings, absent/undefined/null fields as `Option`,
and JS objects as structures or association lists.  JS truthiness of a
string-valued expression is `jsStrTruthy` (empty string and absent value
are falsy).  `Array.prototype.sort`, a stable sort since ES2019, is
modelled by `List.mergeSort`; `Object.keys` enumeration is modelled by
the key order of the association list.  Case folding (`toLowerCase`) is
modelled ASCII-only via `Char.toLower`.
-/

namespace VideoJSPlayer

/-- Truthiness of a possibly absent JS string: undefined, null and the
empty string are falsy. -/
def jsStrTruthy (o : Option String) : Bool :=
  match o with
  | some s => !(s == "")
  | none => false

/-- JS `a || d` for a string-valued `a` with a string default. -/
def jsOrStr (o : Option String) (d : String) : String :=
  match o with
  | some s => if s == "" then d else s
  | none => d

/-- JS `a || b` for two possibly absent string values. -/
def jsOrOpt (a b : Option String) : Option String :=
  if jsStrTruthy a then a else b

/-- JS `String.prototype.toLowerCase`, modelled ASCII-only. -/
def toLowerJS (s : String) : String :=
  ⟨s.data.map Char.toLower⟩

/-- JS `a.startsWith(b)` on the character lists. -/
def startsWithJS (a b : String) : Bool :=
  List.isPrefixOf b.data a.data

/-- JS `a.endsWith(b)` on the character lists. -/
def endsWithJS (a b : String) : Bool :=
  List.isSuffixOf b.data a.data

/-- Fuel-driven splitting of a character list at every occurrence of a
non-empty pattern, mirroring JS `String.prototype.split` with a string
separator.  The fuel is consumed one character (or one match) per step,
so any fuel at least the length of the list is enough. -/
def splitOnFuel (pat : List Char) : Nat → List Char → List Char → List (List Char)
  | 0, cs, acc => [acc.reverse ++ cs]
  | fuel + 1, cs, acc =>
    match cs with
    | [] => [acc.reverse]
    | c :: rest =>
      if List.isPrefixOf pat cs then
        acc.reverse :: splitOnFuel pat fuel (cs.drop pat.length) []
      else
        splitOnFuel pat fuel rest (c :: acc)

/-- JS `s.split(pat)` for a non-empty pattern (every use in the source
has a fixed non-empty separator). -/
def splitOnJS (s pat : String) : List String :=
  if pat == "" then [s]
  else (splitOnFuel pat.data (s.data.length + 1) s.data []).map (fun l => ⟨l⟩)

/-- Concatenation of character lists with a separator between them. -/
def intercalateChars (sep : List Char) : List (List Char) → List Char
  | [] => []
  | [x] => x
  | x :: xs => x ++ sep ++ intercalateChars sep xs

/-- JS `String.prototype.includes` for a non-empty pattern. -/
def strContainsSub (s pat : String) : Bool :=
  1 < (splitOnJS s pat).length

/-- JS `String.prototype.replace` with a plain-string pattern replaces
only the first occurrence (by the empty string here). -/
def jsReplaceFirst (s pat : String) : String :=
  match splitOnFuel pat.data (s.data.length + 1) s.data [] with
  | [] => s
  | [_] => s
  | x :: rest => ⟨x ++ intercalateChars pat.data rest⟩

/-- Merge step of the stable merge sort, driven by fuel so that it is
computable by the kernel; any fuel at least the sum of the lengths is
enough. -/
def jsMergeFuel (le : α → α → Bool) : Nat → List α → List α → List α
  | 0, xs, ys => xs ++ ys
  | _ + 1, [], ys => ys
  | _ + 1, x :: xs, [] => x :: xs
  | fuel + 1, x :: xs, y :: ys =>
    if le x y then x :: jsMergeFuel le fuel xs (y :: ys)
    else y :: jsMergeFuel le fuel (x :: xs) ys

/-- Fuel-driven stable merge sort splitting the list in two contiguous
halves, the same algorithm as `List.mergeSort`; any fuel at least the
length of the list is enough. -/
def jsSortFuel (le : α → α → Bool) : Nat → List α → List α
  | 0, l => l
  | _ + 1, [] => []
  | _ + 1, [a] => [a]
  | fuel + 1, a :: b :: xs =>
    let n := (a :: b :: xs).length
    let l1 := (a :: b :: xs).take ((n + 1) / 2)
    let l2 := (a :: b :: xs).drop ((n + 1) / 2)
    jsMergeFuel le (n + n) (jsSortFuel le fuel l1) (jsSortFuel le fuel l2)

/-- The stable sort used to model `Array.prototype.sort` (stable per
the ECMAScript specification); proved equal to `List.mergeSort`. -/
def jsSort (le : α → α → Bool) (l : List α) : List α :=
  jsSortFuel le l.length l

/-- Numeric value of a list of decimal digit characters. -/
def digitsVal (ds : List Char) : Nat :=
  ds.foldl (fun n c => 10 * n + (c.toNat - 48)) 0

/-- Leading decimal digits of a character list, or `none` when there is
no leading digit (JS NaN). -/
def parseIntDigits (r : List Char) : Option Nat :=
  let ds := r.takeWhile Char.isDigit
  if ds.isEmpty then none else some (digitsVal ds)

/-- Optional leading sign, as used by JS numeric parsing.  Returns the
negativity flag and the remaining characters. -/
def parseSign (cs : List Char) : Bool × List Char :=
  match cs with
  | c :: r => if c == '-' then (true, r) else if c == '+' then (false, r) else (false, cs)
  | [] => (false, cs)

/-- JS `parseInt(s, 10)`: skip whitespace, optional sign, leading
digits; `none` models NaN. -/
def parseIntJS (s : String) : Option Int :=
  let cs := s.data.dropWhile Char.isWhitespace
  let sr := parseSign cs
  (parseIntDigits sr.2).map (fun n => if sr.1 then -(n : Int) else (n : Int))

/-- Digits of a decimal exponent, or `none` when absent. -/
def expDigits (r : List Char) : Option Nat :=
  let ds := r.takeWhile Char.isDigit
  if ds.isEmpty then none else some (digitsVal ds)

/-- Signed decimal exponent digits for JS `parseFloat`. -/
def parseExpDigits (r : List Char) : Option Int :=
  let sr := parseSign r
  (expDigits sr.2).map (fun n => if sr.1 then -(n : Int) else (n : Int))

/-- Exponent marker (`e` or `E`) followed by a signed integer, as
accepted by JS `parseFloat`; `none` when no well-formed exponent
follows (JS then stops before the marker). -/
def parseExpAt (rest : List Char) : Option Int :=
  match rest with
  | 'e' :: r => parseExpDigits r
  | 'E' :: r => parseExpDigits r
  | _ => none

/-- Value of integer digits, fraction digits and a trailing exponent. -/
def floatVal (ip fp rest : List Char) : ℚ :=
  let base : ℚ := (digitsVal ip : ℚ) + (digitsVal fp : ℚ) / (10 : ℚ) ^ fp.length
  match parseExpAt rest with
  | some e => base * (10 : ℚ) ^ e
  | none => base

/-- Unsigned body of JS `parseFloat`: digits, optional fraction,
optional exponent; `none` models NaN (the model omits the literal
`Infinity`, which has no rational value). -/
def parseFloatBody (r : List Char) : Option ℚ :=
  let ip := r.takeWhile Char.isDigit
  let rest := r.drop ip.length
  match rest with
  | '.' :: r2 =>
    let fp := r2.takeWhile Char.isDigit
    if ip.isEmpty && fp.isEmpty then none
    else some (floatVal ip fp (r2.drop fp.length))
  | _ =>
    if ip.isEmpty then none else some (floatVal ip [] rest)

/-- JS `parseFloat`: skip whitespace, optional sign, then the body. -/
def parseFloatJS (s : String) : Option ℚ :=
  let cs := s.data.dropWhile Char.isWhitespace
  let sr := parseSign cs
  (parseFloatBody sr.2).map (fun q => if sr.1 then -q else q)

/-- MIME type from file-extension heuristics keyed on media kind,
translating `getMimeType` (VideoJSPlayer.jsx lines 1461-1489).  The
`url` may be absent or empty (falsy), in which case only the per-kind
default applies. -/
def getMimeType (url : Option String) (mediaType : Option String) : String :=
  let urlHas := fun (pat : String) => jsStrTruthy url && strContainsSub (toLowerJS (url.getD "")) pat
  if mediaType == some "audio" then
    if urlHas ".mp3" then "audio/mpeg"
    else if urlHas ".ogg" then "audio/ogg"
    else if urlHas ".wav" then "audio/wav"
    else if urlHas ".m4a" then "audio/mp4"
    else "audio/mpeg"
  else
    if urlHas ".webm" then "video/webm"
    else if urlHas ".ogg" then "video/ogg"
    else "video/mp4"

/-- The `h264` object of one encoding entry; only its `url` matters to
the player logic. -/
structure EncodingH264 where
  url : Option String

/-- One entry of `encodings_info` (may be the empty object `{}`, whose
`h264` field is then absent). -/
structure EncodingEntry where
  h264 : Option EncodingH264

/-- The `hls_info` object: the `master_file` field plus the remaining
keys (iframe and playlist entries), kept in object-key order. -/
structure HLSInfo where
  master_file : Option String
  entries : List (String × String)

/-- A raw chapter time field: a number is passed through, a string is
parsed, and any other value converts to zero. -/
inductive RawTime where
  | num (q : ℚ)
  | str (s : String)
  | other
deriving DecidableEq

/-- One raw chapter record from the backend. -/
structure RawChapter where
  startTime : RawTime
  endTime : RawTime
  chapterTitle : Option String

/-- One entry of a `qualities` JSON list, input to `normalize`. -/
structure QualityIn where
  label : Option String
  value : Option String
  src : Option String
  url : Option String
  href : Option String
  type : Option String

/-- One entry of `related_media`. -/
structure RelatedMediaIn where
  friendly_token : Option String
  url : Option String
  user : Option String
  title : Option String
  author_name : Option String
  author_thumbnail : Option String
  thumbnail_url : Option String
  media_type : Option String
  views : Int
  duration : Option ℚ
  size : Option String
  likes : Option Int
  dislikes : Option Int
  add_date : Option String
  description : Option String

/-- The `mediaData.data` object (fields used by the embedded logic). -/
structure MediaItemData where
  friendly_token : Option String
  title : Option String
  author_name : Option String
  author_profile : Option String
  author_thumbnail : Option String
  url : Option String
  poster_url : Option String
  duration : Option ℚ
  media_type : Option String
  original_media_url : Option String
  hls_info : Option HLSInfo
  encodings_info : Option (List (String × EncodingEntry))
  chapter_data : Option (List RawChapter)
  qualities : Option (List QualityIn)
  related_media : Option (List RelatedMediaIn)

/-- The `mediaData` object handed to the player component (presentation
fields such as previewSprite and useRoundedCorners are elided). -/
structure MediaData where
  data : Option MediaItemData
  siteUrl : String
  urlAutoplay : Option Bool
  urlMuted : Option Bool
  nextLink : Option String

/-- One resolved source candidate `{src, type, label}`; some branches
emit no `label`. -/
structure SourceCandidate where
  src : String
  type : String
  label : Option String
deriving DecidableEq

/-- Lookup `hls_info[key]`, covering both the `master_file` field and
the remaining object keys. -/
def hlsLookup (h : HLSInfo) (key : String) : Option String :=
  if key == "master_file" then h.master_file
  else (h.entries.find? (fun e => e.1 == key)).map (fun e => e.2)

/-- Lookup `encodings[key]` in the association-list model of the
`encodings_info` object. -/
def encLookup (enc : List (String × EncodingEntry)) (key : String) : Option EncodingEntry :=
  (enc.find? (fun e => e.1 == key)).map (fun e => e.2)

/-- The value of `encodings[key].h264.url` when every link of the chain
is present, else `none`. -/
def encUrl (enc : List (String × EncodingEntry)) (key : String) : Option String :=
  match encLookup enc key with
  | some e =>
    match e.h264 with
    | some h => h.url
    | none => none
  | none => none

/-- Truthiness of `encodings[key] && encodings[key].h264 &&
encodings[key].h264.url`. -/
def encUrlTruthy (enc : List (String × EncodingEntry)) (key : String) : Bool :=
  jsStrTruthy (encUrl enc key)

/-- JS `userQuality.replace(p-for-empty)`: drop the first letter p. -/
def stripP (q : String) : String :=
  jsReplaceFirst q "p"

/-- Descending comparator `parseInt(b) - parseInt(a)` used on encoding
keys; a NaN comparator value is treated as equal by the sort. -/
def encSortDesc (a b : String) : Bool :=
  match parseIntJS a, parseIntJS b with
  | some x, some y => decide (y ≤ x)
  | _, _ => true

/-- Ascending comparator `parseInt(a) - parseInt(b)` used on quality
labels; a NaN comparator value is treated as equal by the sort. -/
def ascByParseInt (a b : String) : Bool :=
  match parseIntJS a, parseIntJS b with
  | some x, some y => decide (x ≤ y)
  | _, _ => true

/-- The hard-coded default placeholder source returned when nothing is
available. -/
def defaultVideoSource : SourceCandidate :=
  { src := "/videos/sample-video.mp4", type := "video/mp4", label := none }

/-- The keys of `encodings_info` whose `h264.url` chain is truthy, in
object-key order (the filter in VideoJSPlayer.jsx line 1573). -/
def validEncodingKeys (enc : List (String × EncodingEntry)) : List String :=
  (enc.map (fun e => e.1)).filter (fun q => encUrlTruthy enc q)

/-- HLS block of `getVideoSources` (VideoJSPlayer.jsx lines 1501-1538);
`some` models an early return, `none` a fall-through to the
encoded-renditions block. -/
def getVideoSourcesHls (mediaData : MediaData) (userQuality : String) : Option (List SourceCandidate) :=
  match mediaData.data with
  | none => none
  | some d =>
    match d.hls_info with
    | none => none
    | some h =>
      if userQuality == "auto" && jsStrTruthy h.master_file then
        some [{ src := mediaData.siteUrl ++ h.master_file.getD "",
                type := "application/x-mpegURL",
                label := some "Auto" }]
      else
        let tryQuality : Option (List SourceCandidate) :=
          if userQuality != "auto" then
            let qualityKey := stripP userQuality ++ "_playlist"
            if jsStrTruthy (hlsLookup h qualityKey) then
              some [{ src := mediaData.siteUrl ++ (hlsLookup h qualityKey).getD "",
                      type := "application/x-mpegURL",
                      label := some (userQuality ++ "p") }]
            else none
          else none
        match tryQuality with
        | some r => some r
        | none =>
          if jsStrTruthy h.master_file then
            some [{ src := mediaData.siteUrl ++ h.master_file.getD "",
                    type := "application/x-mpegURL",
                    label := some "Auto" }]
          else none

/-- Encoded-renditions block of `getVideoSources` (VideoJSPlayer.jsx
lines 1541-1588); `some` models an early return. -/
def getVideoSourcesEnc (mediaData : MediaData) (userQuality : String) : Option (List SourceCandidate) :=
  match mediaData.data with
  | none => none
  | some d =>
    match d.encodings_info with
    | none => none
    | some encodings =>
      let trySpecific : Option (List SourceCandidate) :=
        if userQuality != "auto" then
          let qualityNumber := stripP userQuality
          if encUrlTruthy encodings qualityNumber then
            some [{ src := (encUrl encodings qualityNumber).getD "",
                    type := getMimeType (encUrl encodings qualityNumber) d.media_type,
                    label := some (qualityNumber ++ "p") }]
          else none
        else none
      match trySpecific with
      | some r => some r
      | none =>
        let availableQualityKeys := jsSort encSortDesc (validEncodingKeys encodings)
        let sources := availableQualityKeys.map (fun quality =>
          { src := (encUrl encodings quality).getD "",
            type := getMimeType (encUrl encodings quality) d.media_type,
            label := some (quality ++ "p") })
        if 0 < sources.length then some sources else none

/-- Translation of `getVideoSources` (VideoJSPlayer.jsx lines
1497-1614): HLS branch, encoded-renditions branch, original-URL
fallback, and the hard-coded default. -/
def getVideoSources (mediaData : MediaData) (userQualityPreference : String) : List SourceCandidate :=
  match getVideoSourcesHls mediaData userQualityPreference with
  | some r => r
  | none =>
    match getVideoSourcesEnc mediaData userQualityPreference with
    | some r => r
    | none =>
      match mediaData.data with
      | some d =>
        if jsStrTruthy d.original_media_url then
          let sourceUrl := mediaData.siteUrl ++ d.original_media_url.getD ""
          [{ src := sourceUrl,
             type := getMimeType (some sourceUrl) d.media_type,
             label := none }]
        else [defaultVideoSource]
      | none => [defaultVideoSource]

/-- Poster fallback image imported as a static asset; its concrete path
is opaque to the logic. -/
def audioPosterImg : String := "/images/audio-poster.png"

/-- The `currentVideo` record built per media load (VideoJSPlayer.jsx
lines 1616-1637; presentation fields previewSprite, useRoundedCorners
and isPlayList are elided). -/
structure CurrentVideo where
  id : String
  title : String
  author_name : String
  author_profile : String
  author_thumbnail : String
  url : String
  poster : String
  related_media : List RelatedMediaIn
  nextLink : Option String
  urlAutoplay : Bool
  urlMuted : Bool
  sources : List SourceCandidate

/-- Construction of `currentVideo` from `mediaData` and the stored
quality preference. -/
def mkCurrentVideo (mediaData : MediaData) (userQualityPreference : String) : CurrentVideo :=
  { id := jsOrStr (mediaData.data.bind (fun d => d.friendly_token)) "default-video"
    title := jsOrStr (mediaData.data.bind (fun d => d.title)) "Video"
    author_name := jsOrStr (mediaData.data.bind (fun d => d.author_name)) "Unknown"
    author_profile :=
      if jsStrTruthy (mediaData.data.bind (fun d => d.author_profile)) then
        mediaData.siteUrl ++ (mediaData.data.bind (fun d => d.author_profile)).getD ""
      else ""
    author_thumbnail :=
      if jsStrTruthy (mediaData.data.bind (fun d => d.author_thumbnail)) then
        mediaData.siteUrl ++ (mediaData.data.bind (fun d => d.author_thumbnail)).getD ""
      else ""
    url := jsOrStr (mediaData.data.bind (fun d => d.url)) ""
    poster :=
      if jsStrTruthy (mediaData.data.bind (fun d => d.poster_url)) then
        mediaData.siteUrl ++ (mediaData.data.bind (fun d => d.poster_url)).getD ""
      else audioPosterImg
    related_media := (mediaData.data.bind (fun d => d.related_media)).getD []
    nextLink := if jsStrTruthy mediaData.nextLink then mediaData.nextLink else none
    urlAutoplay :=
      match mediaData.urlAutoplay with
      | some b => b || true
      | none => true
    urlMuted :=
      match mediaData.urlMuted with
      | some b => b || false
      | none => false
    sources := getVideoSources mediaData userQualityPreference }

/-- One normalized entry of the quality menu. -/
structure NormQuality where
  label : String
  value : String
  src : Option String
  type : String
deriving DecidableEq

/-- The `generateDesiredOrder` helper of `availableQualities`
(VideoJSPlayer.jsx lines 1642-1662): `auto` first, then either the
valid encoding keys ascending or the standard ladder. -/
def generateDesiredOrder (mediaData : MediaData) : List String :=
  let baseOrder := ["auto"]
  match mediaData.data.bind (fun d => d.encodings_info) with
  | some encodings =>
    baseOrder ++ jsSort ascByParseInt ((validEncodingKeys encodings).map (fun q => q ++ "p"))
  | none =>
    baseOrder ++ ["144p", "240p", "360p", "480p", "720p", "1080p", "1440p", "2160p"]

/-- The `idx` ranking inside `normalize`: position of the lowercased
value in the desired order, with 999 for values not in it. -/
def qidx (dOrder : List String) (v : String) : Nat :=
  match dOrder.findIdx? (fun s => s == toLowerJS v) with
  | some i => i
  | none => 999

/-- The `normalize` helper of `availableQualities` (VideoJSPlayer.jsx
lines 1666-1684): fill defaults, drop entries without a truthy source,
and stable-sort by `qidx`. -/
def normalizeQ (mediaData : MediaData) (dOrder : List String) (arr : List QualityIn) : List NormQuality :=
  let mt := mediaData.data.bind (fun d => d.media_type)
  let norm := arr.map (fun q =>
    let srcOpt := jsOrOpt (jsOrOpt q.src q.url) q.href
    { label := jsOrStr q.label (jsOrStr q.value "Auto")
      value := toLowerJS (jsOrStr q.value (jsOrStr q.label "auto"))
      src := srcOpt
      type := jsOrStr q.type (getMimeType srcOpt mt) : NormQuality })
  let validQualities := norm.filter (fun q => jsStrTruthy q.src)
  jsSort (fun a b => decide (qidx dOrder a.value ≤ qidx dOrder b.value)) validQualities

/-- The `qualities` JSON list of the media descriptor, when present. -/
def qualitiesJsonOf (mediaData : MediaData) : Option (List QualityIn) :=
  mediaData.data.bind (fun d => d.qualities)

/-- Fallback branch of `availableQualities` built from the current
source (VideoJSPlayer.jsx lines 1752-1771). -/
def availableQualitiesBase (mediaData : MediaData) (userQualityPreference : String) (dOrder : List String) : List NormQuality :=
  let sources := (mkCurrentVideo mediaData userQualityPreference).sources
  let baseSrc : Option String :=
    match sources.head? with
    | some c => if c.src == "" then none else some c.src
    | none => none
  let type := jsOrStr (sources.head?.map (fun c => c.type))
    (getMimeType baseSrc (mediaData.data.bind (fun d => d.media_type)))
  match baseSrc with
  | some bs =>
    normalizeQ mediaData dOrder
      [{ label := some "Auto", value := some "auto", src := some bs,
         url := none, href := none, type := some type }]
  | none => []

/-- Encoded-renditions branch of `availableQualities` (VideoJSPlayer.jsx
lines 1720-1750): an Auto placeholder without a source, then one entry
per valid rendition; falls back when only Auto was collected. -/
def availableQualitiesEnc (mediaData : MediaData) (userQualityPreference : String) (dOrder : List String) : List NormQuality :=
  match mediaData.data with
  | some d =>
    match d.encodings_info with
    | some encodings =>
      let autoQ : QualityIn :=
        { label := some "Auto", value := some "auto", src := none,
          url := none, href := none, type := some (getMimeType none d.media_type) }
      let encQs := (encodings.filter (fun e => encUrlTruthy encodings e.1)).map (fun e =>
        let sourceUrl := (encUrl encodings e.1).getD ""
        { label := some (e.1 ++ "p"), value := some (e.1 ++ "p"), src := some sourceUrl,
          url := none, href := none,
          type := some (getMimeType (some sourceUrl) d.media_type) : QualityIn })
      let qualities := autoQ :: encQs
      if 1 < qualities.length then normalizeQ mediaData dOrder qualities
      else availableQualitiesBase mediaData userQualityPreference dOrder
    | none => availableQualitiesBase mediaData userQualityPreference dOrder
  | none => availableQualitiesBase mediaData userQualityPreference dOrder

/-- HLS branch of `availableQualities` (VideoJSPlayer.jsx lines
1692-1718): Auto from the master file, then one entry per key ending in
the playlist marker. -/
def availableQualitiesRest (mediaData : MediaData) (userQualityPreference : String) (dOrder : List String) : List NormQuality :=
  match mediaData.data with
  | some d =>
    match d.hls_info with
    | some h =>
      if jsStrTruthy h.master_file then
        let autoQ : QualityIn :=
          { label := some "Auto", value := some "auto",
            src := some (mediaData.siteUrl ++ h.master_file.getD ""),
            url := none, href := none, type := some "application/x-mpegURL" }
        let playlistQs := (h.entries.filter (fun e => endsWithJS e.1 "_playlist")).map (fun e =>
          let quality := jsReplaceFirst e.1 "_playlist"
          { label := some (quality ++ "p"), value := some (quality ++ "p"),
            src := some (mediaData.siteUrl ++ e.2),
            url := none, href := none, type := some "application/x-mpegURL" : QualityIn })
        normalizeQ mediaData dOrder (autoQ :: playlistQs)
      else availableQualitiesEnc mediaData userQualityPreference dOrder
    | none => availableQualitiesEnc mediaData userQualityPreference dOrder
  | none => availableQualitiesEnc mediaData userQualityPreference dOrder

/-- Translation of `availableQualities` (VideoJSPlayer.jsx lines
1640-1772): JSON list first, then the HLS, encodings and current-source
branches. -/
def availableQualities (mediaData : MediaData) (userQualityPreference : String) : List NormQuality :=
  let dOrder := generateDesiredOrder mediaData
  match qualitiesJsonOf mediaData with
  | some jsonList =>
    if 0 < jsonList.length then normalizeQ mediaData dOrder jsonList
    else availableQualitiesRest mediaData userQualityPreference dOrder
  | none => availableQualitiesRest mediaData userQualityPreference dOrder

/-- One converted chapter interval `{startTime, endTime, chapterTitle}`
in seconds. -/
structure ChapterOut where
  startTime : ℚ
  endTime : ℚ
  chapterTitle : Option String
deriving DecidableEq

/-- Translation of `convertTimeStringToSeconds` (VideoJSPlayer.jsx lines
1326-1345): numbers pass through, strings must split into exactly three
colon-separated parts, anything else yields zero. -/
def convertTimeStringToSeconds (timeString : RawTime) : ℚ :=
  match timeString with
  | .num q => q
  | .other => 0
  | .str s =>
    let parts := splitOnJS s ":"
    if parts.length ≠ 3 then 0
    else
      let hours : Int := (parseIntJS (parts.getD 0 "")).getD 0
      let minutes : Int := (parseIntJS (parts.getD 1 "")).getD 0
      let seconds : ℚ := (parseFloatJS (parts.getD 2 "")).getD 0
      (hours : ℚ) * 3600 + (minutes : ℚ) * 60 + seconds

/-- Translation of `convertChaptersData` (VideoJSPlayer.jsx lines
1348-1362) on a present chapter list (an absent or non-array input
returns the empty list at the call site). -/
def convertChaptersData (rawChaptersData : List RawChapter) : List ChapterOut :=
  rawChaptersData.map (fun chapter =>
    { startTime := convertTimeStringToSeconds chapter.startTime
      endTime := convertTimeStringToSeconds chapter.endTime
      chapterTitle := chapter.chapterTitle })

/-- The generic-title test of `hasRealChapters`: the lowercased title
fully matches one of the auto-generated names. -/
def isGenericTitleB (chapter : RawChapter) : Bool :=
  match chapter.chapterTitle with
  | some t =>
    let l := toLowerJS t
    l == "segment" || l == "video" || l == "full video" || l == "chapter" || l == "part"
  | none => false

/-- Translation of `hasRealChapters` (VideoJSPlayer.jsx lines
1366-1413). -/
def hasRealChapters (rawChaptersData : List RawChapter) (videoDuration : Option ℚ) : Bool :=
  match rawChaptersData with
  | [] => false
  | _ :: _ :: _ => true
  | [chapter] =>
    let startTime := convertTimeStringToSeconds chapter.startTime
    let endTime := convertTimeStringToSeconds chapter.endTime
    let isGenericTitle := isGenericTitleB chapter
    let fallbackCheck : Bool :=
      if startTime = 0 ∧ isGenericTitle = true then false else true
    match videoDuration with
    | some vd =>
      if 0 < vd then
        if (startTime ≤ 1 ∧ |endTime - vd| ≤ 1) ∧ isGenericTitle = true then false
        else if ¬(startTime ≤ 1 ∧ |endTime - vd| ≤ 1) then true
        else fallbackCheck
      else fallbackCheck
    | none => fallbackCheck

/-- JS `duration || null`: a zero duration is falsy and becomes null. -/
def jsNumOrNull (o : Option ℚ) : Option ℚ :=
  match o with
  | some x => if x = 0 then none else some x
  | none => none

/-- Translation of the `chaptersData` memo (VideoJSPlayer.jsx lines
1416-1427) for provided chapter data; the development-mode demo list
used only when `chapter_data` is absent or empty is out of scope and
modelled as the empty result. -/
def chaptersData (chapter_data : Option (List RawChapter)) (duration : Option ℚ) : List ChapterOut :=
  match chapter_data with
  | some l =>
    if 0 < l.length then
      let videoDuration := jsNumOrNull duration
      if hasRealChapters l videoDuration then convertChaptersData l else []
    else []
  | none => []

/-- One derived related-video record. -/
structure RelatedVideo where
  id : Option String
  title : Option String
  author : String
  views : String
  thumbnail : Option String
  category : Option String
  url : Option String
  duration : Option ℚ
  size : Option String
  likes : Option Int
  dislikes : Option Int
  add_date : Option String
  description : Option String
deriving DecidableEq

/-- The per-item mapping inside `relatedVideos`. -/
def mkRelatedVideo (media : RelatedMediaIn) : RelatedVideo :=
  { id := media.friendly_token
    title := media.title
    author := jsOrStr media.user (jsOrStr media.author_name "Unknown")
    views := toString media.views ++ " views"
    thumbnail := jsOrOpt media.thumbnail_url media.author_thumbnail
    category := media.media_type
    url := media.url
    duration := media.duration
    size := media.size
    likes := media.likes
    dislikes := media.dislikes
    add_date := media.add_date
    description := media.description }

/-- Translation of the `relatedVideos` memo (VideoJSPlayer.jsx lines
1775-1797): empty when `related_media` is absent, else the first twelve
entries mapped in order. -/
def relatedVideos (mediaData : MediaData) : List RelatedVideo :=
  match mediaData.data.bind (fun d => d.related_media) with
  | none => []
  | some l => (l.take 12).map mkRelatedVideo

/-- A subtitle track as far as language matching is concerned. -/
structure SubtitleTrackIn where
  srclang : Option String
  language : Option String

/-- Translation of `matchLang` (VideoJSPlayer.jsx lines 2540-2545). -/
def matchLang (t : SubtitleTrackIn) (target : String) : Bool :=
  let tl := toLowerJS (jsOrStr t.srclang (jsOrStr t.language ""))
  let sl := toLowerJS target
  if (tl == "") || (sl == "") then false
  else tl == sl || startsWithJS tl (sl ++ "-") || startsWithJS sl (tl ++ "-")

/-- The matching core of `matchLang` on two already-extracted language
strings. -/
def langMatches (a b : String) : Bool :=
  matchLang { srclang := some a, language := none } b

/-- Muted flag and paused flag of the live player. -/
structure PlayerState where
  muted : Bool
  paused : Bool
deriving DecidableEq

/-- Oracle for the browser autoplay policy: whether the play promise of
the first attempt, and of a muted retry, is rejected. -/
structure AutoplayEnv where
  firstPlayRejected : Bool
  mutedPlayRejected : Bool

/-- Observable outcome of the next-navigation autoplay block: final
player state, the muted flag of each play attempt in order, the logged
failure messages, and whether an exception escaped. -/
structure AutoplayResult where
  state : PlayerState
  attempts : List Bool
  logs : List String
  threw : Bool
deriving DecidableEq

/-- Translation of the next-navigation autoplay block (VideoJSPlayer.jsx
lines 2508-2533): skipped for embed players, for a falsy `m` URL
parameter or a disposed player; otherwise one play attempt, and on
rejection a single muted retry whose own rejection is only logged.  The
deferred timer is modelled as running immediately. -/
def autoplayOnNav (isEmbedPlayer : Bool) (videoParam : Option String) (disposed : Bool)
    (st : PlayerState) (env : AutoplayEnv) : AutoplayResult :=
  if !isEmbedPlayer && jsStrTruthy videoParam then
    if !disposed then
      if !env.firstPlayRejected then
        { state := { st with paused := false }, attempts := [st.muted], logs := [], threw := false }
      else
        let logs1 := ["Browser prevented play"]
        if !st.muted then
          let st2 : PlayerState := { st with muted := true }
          if !env.mutedPlayRejected then
            { state := { st2 with paused := false }, attempts := [st.muted, true],
              logs := logs1, threw := false }
          else
            { state := st2, attempts := [st.muted, true],
              logs := logs1 ++ ["Even muted play was blocked"], threw := false }
        else
          { state := st, attempts := [st.muted], logs := logs1, threw := false }
    else { state := st, attempts := [], logs := [], threw := false }
  else { state := st, attempts := [], logs := [], threw := false }

/-- No HLS source can be produced from this item: the `hls_info` object
is absent, or it has a falsy master file and only falsy entry values. -/
def hlsHasNoSource (d : MediaItemData) : Bool :=
  match d.hls_info with
  | none => true
  | some h => !jsStrTruthy h.master_file && h.entries.all (fun e => !jsStrTruthy (some e.2))

/-- No encoded rendition can be produced from this item: the
`encodings_info` object is absent, or no key has a truthy url chain. -/
def encHasNoSource (d : MediaItemData) : Bool :=
  match d.encodings_info with
  | none => true
  | some encodings => encodings.all (fun e => !encUrlTruthy encodings e.1)

/-- No adaptive manifest, no encoded rendition and no canonical media
URL is available for this media descriptor. -/
def noPlayableSource (mediaData : MediaData) : Bool :=
  match mediaData.data with
  | none => true
  | some d => hlsHasNoSource d && encHasNoSource d && !jsStrTruthy d.original_media_url

/-- A media-item template with every optional field absent, for
building concrete test descriptors. -/
def emptyItem : MediaItemData :=
  { friendly_token := none, title := none, author_name := none, author_profile := none,
    author_thumbnail := none, url := none, poster_url := none, duration := none,
    media_type := none, original_media_url := none, hls_info := none,
    encodings_info := none, chapter_data := none, qualities := none, related_media := none }

/-- A media descriptor with no payload at all. -/
def mediaFixtureEmpty : MediaData :=
  { data := none, siteUrl := "", urlAutoplay := none, urlMuted := none, nextLink := none }

/-- Concrete HLS info with a master file and a 720 playlist variant,
mirroring the demo payload embedded in the component. -/
def hlsFixture : HLSInfo :=
  { master_file := some "/media/hls/master.m3u8",
    entries := [("720_playlist", "/media/hls/media-3/stream.m3u8"),
                ("240_playlist", "/media/hls/media-1/stream.m3u8")] }

/-- A media descriptor whose item carries only the HLS fixture. -/
def mediaFixtureHls : MediaData :=
  { data := some { emptyItem with hls_info := some hlsFixture },
    siteUrl := "https://example.org", urlAutoplay := none, urlMuted := none, nextLink := none }

/-- Encoded renditions at 240, 480 and 720, mirroring the demo payload
(the 1440 key is present but has no url chain). -/
def encFixture : List (String × EncodingEntry) :=
  [("240", { h264 := some { url := some "/enc/240.mp4" } }),
   ("480", { h264 := some { url := some "/enc/480.mp4" } }),
   ("720", { h264 := some { url := some "/enc/720.mp4" } }),
   ("1440", { h264 := none })]

/-- A media descriptor with encoded renditions only. -/
def mediaFixtureEnc : MediaData :=
  { data := some { emptyItem with media_type := some "video", encodings_info := some encFixture },
    siteUrl := "https://example.org", urlAutoplay := none, urlMuted := none, nextLink := none }

/-- A qualities JSON entry with a label and a concrete source. -/
def qualityInFixture (l s : String) : QualityIn :=
  { label := some l, value := some l, src := some s, url := none, href := none, type := none }

/-- A media descriptor with two valid encoded renditions and an
explicit qualities list holding a duplicate and an out-of-ladder
label. -/
def mediaFixtureCex : MediaData :=
  { data := some { emptyItem with
      encodings_info := some
        [("480", { h264 := some { url := some "/enc/480.mp4" } }),
         ("1080", { h264 := some { url := some "/enc/1080.mp4" } })],
      qualities := some [qualityInFixture "720p" "/q/720.mp4",
                         qualityInFixture "1080p" "/q/1080a.mp4",
                         qualityInFixture "1080p" "/q/1080b.mp4",
                         qualityInFixture "480p" "/q/480.mp4"] },
    siteUrl := "https://example.org", urlAutoplay := none, urlMuted := none, nextLink := none }

/-- A related-media template with every optional field absent. -/
def emptyRelated : RelatedMediaIn :=
  { friendly_token := none, url := none, user := none, title := none, author_name := none,
    author_thumbnail := none, thumbnail_url := none, media_type := none, views := 0,
    duration := none, size := none, likes := none, dislikes := none,
    add_date := none, description := none }

/-- Two concrete related items. -/
def relatedFixture : List RelatedMediaIn :=
  [{ emptyRelated with friendly_token := some "r1", views := 7 },
   { emptyRelated with friendly_token := some "r2", user := some "markos" }]

/-- A media descriptor with two related items. -/
def mediaFixtureRel : MediaData :=
  { data := some { emptyItem with related_media := some relatedFixture },
    siteUrl := "", urlAutoplay := none, urlMuted := none, nextLink := none }

/-! Bridge lemmas relating the fuel-driven stable sort to
`List.mergeSort`, so that the library lemmas about merge sort apply to
the embedded sort. -/

theorem jsMergeFuel_eq {α : Type _} (le : α → α → Bool) :
    ∀ (fuel : Nat) (xs ys : List α), xs.length + ys.length ≤ fuel →
      jsMergeFuel le fuel xs ys = List.merge xs ys le := by
  intro fuel
  induction fuel with
  | zero =>
    intro xs ys h
    have hx : xs = [] := by
      cases xs with
      | nil => rfl
      | cons a l => simp at h
    have hy : ys = [] := by
      cases ys with
      | nil => rfl
      | cons a l => simp at h
    subst hx; subst hy
    simp [jsMergeFuel]
  | succ fuel ih =>
    intro xs ys h
    cases xs with
    | nil => simp [jsMergeFuel]
    | cons x xs =>
      cases ys with
      | nil => simp [jsMergeFuel, List.merge_right]
      | cons y ys =>
        simp only [jsMergeFuel, List.merge]
        by_cases hle : le x y = true
        · simp only [hle, if_true]
          rw [ih xs (y :: ys) (by simp at h ⊢; omega)]
        · rw [if_neg hle, if_neg hle]
          rw [ih (x :: xs) ys (by simp at h ⊢; omega)]

theorem jsSortFuel_eq {α : Type _} (le : α → α → Bool) :
    ∀ (fuel : Nat) (l : List α), l.length ≤ fuel →
      jsSortFuel le fuel l = l.mergeSort le := by
  intro fuel
  induction fuel with
  | zero =>
    intro l h
    have hl : l = [] := by
      cases l with
      | nil => rfl
      | cons a t => simp at h
    subst hl
    simp [jsSortFuel]
  | succ fuel ih =>
    intro l h
    match l with
    | [] => simp [jsSortFuel]
    | [a] => simp [jsSortFuel]
    | a :: b :: xs =>
      have h2 : xs.length + 1 + 1 ≤ fuel + 1 := by simpa using h
      simp only [jsSortFuel, List.length_cons]
      rw [ih _ (by simp [List.length_take, List.length_cons]; omega)]
      rw [ih _ (by simp [List.length_drop, List.length_cons]; omega)]
      rw [jsMergeFuel_eq le _ _ _ (by
        simp [List.length_take, List.length_drop, List.length_cons]; omega)]
      conv_rhs => rw [List.mergeSort]
      congr 1 <;> simp

theorem jsSort_eq_mergeSort {α : Type _} (le : α → α → Bool) (l : List α) :
    jsSort le l = l.mergeSort le :=
  jsSortFuel_eq le l.length l (Nat.le_refl _)

theorem jsSort_perm {α : Type _} (le : α → α → Bool) (l : List α) :
    (jsSort le l).Perm l := by
  rw [jsSort_eq_mergeSort]
  exact List.mergeSort_perm l le

theorem mem_jsSort {α : Type _} {le : α → α → Bool} {l : List α} {a : α} :
    a ∈ jsSort le l ↔ a ∈ l := by
  rw [jsSort_eq_mergeSort]
  exact List.mem_mergeSort

theorem length_jsSort {α : Type _} (le : α → α → Bool) (l : List α) :
    (jsSort le l).length = l.length := by
  rw [jsSort_eq_mergeSort]
  exact List.length_mergeSort l

theorem sorted_jsSort {α : Type _} {le : α → α → Bool}
    (htrans : ∀ (a b c : α), le a b = true → le b c = true → le a c = true)
    (htotal : ∀ (a b : α), (le a b || le b a) = true)
    (l : List α) : List.Pairwise (fun a b => le a b = true) (jsSort le l) := by
  rw [jsSort_eq_mergeSort]
  exact List.sorted_mergeSort htrans htotal l

theorem jsMergeFuel_congr {α : Type _} (le le' : α → α → Bool) :
    ∀ (fuel : Nat) (xs ys : List α), (∀ a ∈ xs, ∀ b ∈ ys, le a b = le' a b) →
      jsMergeFuel le fuel xs ys = jsMergeFuel le' fuel xs ys := by
  intro fuel
  induction fuel with
  | zero => intro xs ys _; rfl
  | succ fuel ih =>
    intro xs ys hag
    cases xs with
    | nil => rfl
    | cons x xs =>
      cases ys with
      | nil => rfl
      | cons y ys =>
        simp only [jsMergeFuel]
        have hxy : le x y = le' x y := hag x (by simp) y (by simp)
        by_cases hle : le' x y = true
        · rw [hxy, if_pos hle, if_pos hle,
            ih xs (y :: ys) (fun a ha b hb => hag a (by simp [ha]) b hb)]
        · rw [hxy, if_neg hle, if_neg hle,
            ih (x :: xs) ys (fun a ha b hb => hag a ha b (by simp [hb]))]

theorem mergeSort_congr {α : Type _} (le le' : α → α → Bool) :
    ∀ (l : List α), (∀ a ∈ l, ∀ b ∈ l, le a b = le' a b) →
      l.mergeSort le = l.mergeSort le'
  | [], _ => by simp
  | [a], _ => by simp
  | a :: b :: xs, hag => by
    have h1 : (List.splitInTwo ⟨a :: b :: xs, rfl⟩).1.1.length < xs.length + 1 + 1 := by
      simp [List.splitInTwo_fst]; omega
    have h2 : (List.splitInTwo ⟨a :: b :: xs, rfl⟩).2.1.length < xs.length + 1 + 1 := by
      simp [List.splitInTwo_snd]; omega
    have hsub1 : ∀ x ∈ (List.splitInTwo ⟨a :: b :: xs, rfl⟩).1.1, x ∈ a :: b :: xs := by
      intro x hx
      rw [List.splitInTwo_fst] at hx
      exact List.take_subset _ _ hx
    have hsub2 : ∀ x ∈ (List.splitInTwo ⟨a :: b :: xs, rfl⟩).2.1, x ∈ a :: b :: xs := by
      intro x hx
      rw [List.splitInTwo_snd] at hx
      exact List.drop_subset _ _ hx
    rw [List.mergeSort, List.mergeSort]
    rw [mergeSort_congr le le' (List.splitInTwo ⟨a :: b :: xs, rfl⟩).1.1
      (fun x hx y hy => hag x (hsub1 x hx) y (hsub1 y hy))]
    rw [mergeSort_congr le le' (List.splitInTwo ⟨a :: b :: xs, rfl⟩).2.1
      (fun x hx y hy => hag x (hsub2 x hx) y (hsub2 y hy))]
    have hlen : ∀ (u v : List α), u.length + v.length ≤ u.length + v.length := fun u v => Nat.le_refl _
    rw [← jsMergeFuel_eq le _ _ _ (hlen _ _), ← jsMergeFuel_eq le' _ _ _ (hlen _ _)]
    apply jsMergeFuel_congr
    intro x hx y hy
    have hx2 := List.mem_mergeSort.mp hx
    have hy2 := List.mem_mergeSort.mp hy
    exact hag x (hsub1 x hx2) y (hsub2 y hy2)
termination_by l => l.length

theorem jsSort_congr {α : Type _} (le le' : α → α → Bool) (l : List α)
    (hag : ∀ a ∈ l, ∀ b ∈ l, le a b = le' a b) : jsSort le l = jsSort le' l := by
  rw [jsSort_eq_mergeSort, jsSort_eq_mergeSort]
  exact mergeSort_congr le le' l hag

theorem jsSort_head_of_key {α : Type _} (k : α → Nat) (a : α) (rest : List α)
    (ha : k a = 0) (hr : ∀ x ∈ rest, k x ≠ 0) :
    (jsSort (fun x y => decide (k x ≤ k y)) (a :: rest)).head? = some a := by
  have htrans : ∀ (x y z : α), decide (k x ≤ k y) = true → decide (k y ≤ k z) = true →
      decide (k x ≤ k z) = true := by
    intro x y z hxy hyz
    simp only [decide_eq_true_eq] at hxy hyz ⊢
    omega
  have htotal : ∀ (x y : α), (decide (k x ≤ k y) || decide (k y ≤ k x)) = true := by
    intro x y
    simp only [Bool.or_eq_true, decide_eq_true_eq]
    omega
  have hsort := sorted_jsSort htrans htotal (a :: rest)
  have hperm := jsSort_perm (fun x y => decide (k x ≤ k y)) (a :: rest)
  cases hL : jsSort (fun x y => decide (k x ≤ k y)) (a :: rest) with
  | nil =>
    have := hperm.length_eq
    rw [hL] at this
    simp at this
  | cons b t =>
    have hbmem : b ∈ a :: rest := hperm.mem_iff.mp (by rw [hL]; simp)
    have hamem : a ∈ b :: t := by
      rw [← hL]
      exact hperm.mem_iff.mpr (by simp)
    rw [hL] at hsort
    rcases List.mem_cons.mp hamem with heq | hat
    · rcases List.mem_cons.mp hbmem with hbeq | hbr
      · simp [hbeq]
      · -- a appears at the head position value b; either way the head equals a
        simp [heq]
    · have hba : decide (k b ≤ k a) = true := (List.pairwise_cons.mp hsort).1 a hat
      simp only [decide_eq_true_eq, ha, Nat.le_zero] at hba
      rcases List.mem_cons.mp hbmem with hbeq | hbr
      · simp [hbeq]
      · exact absurd hba (hr b hbr)

/-! Helper lemmas about the embedded string primitives. -/

theorem toLowerJS_data (s : String) : (toLowerJS s).data = s.data.map Char.toLower := rfl

theorem toLowerJS_eq_empty_iff (s : String) : toLowerJS s = "" ↔ s = "" := by
  constructor
  · intro h
    have hd := congrArg String.data h
    rw [toLowerJS_data] at hd
    simp only [List.map_eq_nil_iff] at hd
    · cases s with
      | mk data => simp_all
  · intro h
    subst h
    rfl

theorem string_append_ne_empty_of_right (a b : String) (hb : b ≠ "") : a ++ b ≠ "" := by
  intro h
  apply hb
  have hd := congrArg String.data h
  rw [String.data_append] at hd
  rcases List.append_eq_nil.mp hd with ⟨_, h2⟩
  cases b with
  | mk data => simp_all

theorem toLower_twice_append_p_ne_auto (q : String) :
    toLowerJS (toLowerJS (q ++ "p")) ≠ "auto" := by
  intro h
  have hd := congrArg String.data h
  rw [toLowerJS_data, toLowerJS_data, String.data_append] at hd
  have hp : "p".data = ['p'] := rfl
  rw [hp, List.map_append, List.map_append] at hd
  have hlp : ['p'].map Char.toLower = ['p'] := by decide
  rw [hlp, hlp] at hd
  have hlast := congrArg List.getLast? hd
  rw [List.getLast?_concat] at hlast
  have : "auto".data.getLast? = some 'o' := by decide
  rw [this] at hlast
  simp at hlast

theorem jsOrStr_some_empty_default (t : String) : jsOrStr (some t) "" = t := by
  by_cases h : t = ""
  · simp [jsOrStr, h]
  · simp [jsOrStr, h]

theorem jsOrStr_some_of_ne (t d : String) (h : t ≠ "") : jsOrStr (some t) d = t := by
  simp [jsOrStr, h]

theorem jsStrTruthy_some_iff (s : String) : jsStrTruthy (some s) = true ↔ s ≠ "" := by
  simp [jsStrTruthy]

theorem char_isDigit_not_isWhitespace (c : Char) (h : c.isDigit = true) :
    c.isWhitespace = false := by
  by_contra hw
  simp only [Bool.not_eq_false] at hw
  simp only [Char.isWhitespace, Bool.or_eq_true, decide_eq_true_eq] at hw
  rcases hw with ((h1 | h1) | h1) | h1 <;> subst h1 <;> exact absurd h (by decide)

theorem takeWhile_of_all {α : Type _} (p : α → Bool) :
    ∀ (l : List α), (∀ c ∈ l, p c = true) → l.takeWhile p = l := by
  intro l
  induction l with
  | nil => intro _; rfl
  | cons c t ih =>
    intro h
    rw [List.takeWhile_cons, if_pos (h c (by simp))]
    rw [ih (fun x hx => h x (by simp [hx]))]

theorem takeWhile_digits_concat_p (l : List Char) (h : ∀ c ∈ l, c.isDigit = true) :
    (l ++ ['p']).takeWhile Char.isDigit = l := by
  induction l with
  | nil => decide
  | cons c t ih =>
    rw [List.cons_append, List.takeWhile_cons, if_pos (h c (by simp))]
    rw [ih (fun x hx => h x (by simp [hx]))]

theorem parseIntJS_digits (k : String) (hne : k.data ≠ [])
    (hd : ∀ c ∈ k.data, c.isDigit = true) : parseIntJS k = some (digitsVal k.data) := by
  rcases List.exists_cons_of_ne_nil hne with ⟨c, t, hct⟩
  have hcdig : c.isDigit = true := hd c (by rw [hct]; simp)
  have hcm : c ≠ '-' := by intro h; subst h; exact absurd hcdig (by decide)
  have hcp : c ≠ '+' := by intro h; subst h; exact absurd hcdig (by decide)
  simp only [parseIntJS, hct]
  rw [List.dropWhile_cons, if_neg (by
    rw [char_isDigit_not_isWhitespace c hcdig]; simp)]
  simp only [parseSign, beq_iff_eq, if_neg hcm, if_neg hcp]
  simp only [parseIntDigits]
  rw [takeWhile_of_all Char.isDigit (c :: t) (fun x hx => hd x (by rw [hct]; exact hx))]
  simp

theorem parseIntJS_append_p (k : String) (hne : k.data ≠ [])
    (hd : ∀ c ∈ k.data, c.isDigit = true) :
    parseIntJS (k ++ "p") = some (digitsVal k.data) := by
  rcases List.exists_cons_of_ne_nil hne with ⟨c, t, hct⟩
  have hcdig : c.isDigit = true := hd c (by rw [hct]; simp)
  have hcm : c ≠ '-' := by intro h; subst h; exact absurd hcdig (by decide)
  have hcp : c ≠ '+' := by intro h; subst h; exact absurd hcdig (by decide)
  have hdata : (k ++ "p").data = c :: (t ++ ['p']) := by
    rw [String.data_append, hct]
    rfl
  simp only [parseIntJS, hdata]
  rw [List.dropWhile_cons, if_neg (by
    rw [char_isDigit_not_isWhitespace c hcdig]; simp)]
  simp only [parseSign, beq_iff_eq, if_neg hcm, if_neg hcp]
  simp only [parseIntDigits]
  have : (c :: (t ++ ['p'])).takeWhile Char.isDigit = c :: t := by
    have := takeWhile_digits_concat_p (c :: t) (fun x hx => hd x (by rw [hct]; exact hx))
    simpa using this
  rw [this]
  simp [hct]

/-- C9: for every media-data input, the constructed current-video
record forces `urlAutoplay` to `true` — even an explicit `false` is
overridden by the logical-OR against the constant `true` — while
`urlMuted` preserves an explicit `false` (it equals the given value,
defaulting to `false`). -/
theorem currentVideo_urlAutoplay_forced (m : MediaData) (uq : String) :
    (mkCurrentVideo m uq).urlAutoplay = true
    ∧ (mkCurrentVideo m uq).urlMuted = m.urlMuted.getD false := by
  constructor
  · cases h : m.urlAutoplay with
    | none => simp [mkCurrentVideo, h]
    | some b => cases b <;> simp [mkCurrentVideo, h]
  · cases h : m.urlMuted with
    | none => simp [mkCurrentVideo, h]
    | some b => cases b <;> simp [mkCurrentVideo, h]

/-- C8: when the player is unmuted and the first play attempt is
rejected, exactly one further attempt happens and it is muted; nothing
is thrown, both rejections are only logged, and the player ends up
paused exactly when the muted retry is also rejected. -/
theorem autoplay_single_muted_retry (b2 : Bool) :
    autoplayOnNav false (some "x") false { muted := false, paused := true }
        { firstPlayRejected := true, mutedPlayRejected := b2 }
      = { state := { muted := true, paused := b2 },
          attempts := [false, true],
          logs := if b2 then ["Browser prevented play", "Even muted play was blocked"]
                  else ["Browser prevented play"],
          threw := false } := by
  cases b2 <;> rfl

/-- C1 check: with an HLS variant present for the requested discrete
quality "720p", the single candidate returned by the source resolution
is labeled "720pp" rather than "720p" — the code appends a second
letter p to the full preference string in the adaptive-manifest-variant
branch. -/
theorem hls_variant_label_mismatch :
    (getVideoSources mediaFixtureHls "720p").map (fun c => c.label) = [some "720pp"]
    ∧ (getVideoSources mediaFixtureHls "720p").map (fun c => c.label) ≠ [some "720p"] := by
  constructor
  · decide
  · decide

/-- C10: the related-videos list holds at most twelve entries, is empty
when the related-media field is absent, and is the per-item image of
the first twelve related-media entries in input order. -/
theorem relatedVideos_take12 (m : MediaData) :
    (relatedVideos m).length ≤ 12
    ∧ (m.data.bind (fun d => d.related_media) = none → relatedVideos m = [])
    ∧ (relatedVideos m).map (fun r => r.id)
        = (((m.data.bind (fun d => d.related_media)).getD []).take 12).map
            (fun r => r.friendly_token) := by
  refine ⟨?_, ?_, ?_⟩
  · cases h : m.data.bind (fun d => d.related_media) with
    | none => simp [relatedVideos, h]
    | some l =>
      simp only [relatedVideos, h, List.length_map]
      have := List.length_take_le 12 l
      omega
  · intro h
    simp [relatedVideos, h]
  · cases h : m.data.bind (fun d => d.related_media) with
    | none => simp [relatedVideos, h]
    | some l =>
      simp only [relatedVideos, h, List.map_map]
      rfl

/-- C10 witness: two related items map in order to their tokens, and an
absent related-media field yields the empty list. -/
theorem relatedVideos_take12_witness :
    (relatedVideos mediaFixtureRel).map (fun r => r.id) = [some "r1", some "r2"]
    ∧ relatedVideos mediaFixtureHls = [] := by
  constructor
  · have h := (relatedVideos_take12 mediaFixtureRel).2.2
    rw [h]
    decide
  · exact (relatedVideos_take12 mediaFixtureHls).2.1 rfl

/-- C7: subtitle language matching holds exactly when, after case
folding, the track tag equals the stored preference or one extends the
other by a hyphen-delimited subtag; it is symmetric in the two strings
and never holds when either side is empty. -/
theorem matchLang_characterization (S T : String) :
    (matchLang { srclang := some T, language := none } S = true ↔
      (T ≠ "" ∧ S ≠ "" ∧ (toLowerJS T = toLowerJS S
        ∨ startsWithJS (toLowerJS T) (toLowerJS S ++ "-") = true
        ∨ startsWithJS (toLowerJS S) (toLowerJS T ++ "-") = true)))
    ∧ matchLang { srclang := some T, language := none } S
        = matchLang { srclang := some S, language := none } T := by
  have hsrc : ∀ (x : String),
      jsOrStr (some x) (jsOrStr (none : Option String) "") = x := by
    intro x
    exact jsOrStr_some_empty_default x
  constructor
  · simp only [matchLang, hsrc]
    by_cases hT : T = ""
    · subst hT
      simp [toLowerJS_eq_empty_iff]
    · by_cases hS : S = ""
      · subst hS
        simp [toLowerJS_eq_empty_iff]
      · have hT2 : (toLowerJS T == "") = false := by
          simp [beq_eq_false_iff_ne, toLowerJS_eq_empty_iff, hT]
        have hS2 : (toLowerJS S == "") = false := by
          simp [beq_eq_false_iff_ne, toLowerJS_eq_empty_iff, hS]
        rw [hT2, hS2]
        simp [hT, hS, beq_iff_eq, or_assoc]
  · simp only [matchLang, hsrc]
    by_cases hT : toLowerJS T = ""
    · by_cases hS : toLowerJS S = "" <;> simp [hT, hS]
    · by_cases hS : toLowerJS S = ""
      · simp [hT, hS]
      · have hT2 : (toLowerJS T == "") = false := by simp [beq_eq_false_iff_ne, hT]
        have hS2 : (toLowerJS S == "") = false := by simp [beq_eq_false_iff_ne, hS]
        rw [hT2, hS2]
        simp only [Bool.false_or, Bool.or_eq_true]
        by_cases hxy : toLowerJS T = toLowerJS S
        · simp [hxy]
        · have h1 : (toLowerJS T == toLowerJS S) = false := by
            simp [beq_eq_false_iff_ne, hxy]
          have h2 : (toLowerJS S == toLowerJS T) = false := by
            simp [beq_eq_false_iff_ne, Ne.symm hxy]
          rw [h1, h2]
          simp only [Bool.false_or]
          exact Bool.or_comm _ _

/-- C6: a raw chapter list with more than one entry is converted
entry-by-entry in input order with no suppression; numeric time fields
pass through, a string without exactly two colons converts to zero, and
a non-numeric non-string field converts to zero. -/
theorem convertChapters_multi_entry (raw : List RawChapter) (D : Option ℚ) (q : ℚ)
    (s : String) (hlen : 1 < raw.length) (hs : (splitOnJS s ":").length ≠ 3) :
    chaptersData (some raw) D
      = raw.map (fun chapter =>
          { startTime := convertTimeStringToSeconds chapter.startTime
            endTime := convertTimeStringToSeconds chapter.endTime
            chapterTitle := chapter.chapterTitle })
    ∧ (chaptersData (some raw) D).length = raw.length
    ∧ convertTimeStringToSeconds (.num q) = q
    ∧ convertTimeStringToSeconds (.str s) = 0
    ∧ convertTimeStringToSeconds .other = 0 := by
  have hmain : chaptersData (some raw) D = convertChaptersData raw := by
    match raw, hlen with
    | a :: b :: t, _ =>
      simp [chaptersData, hasRealChapters]
  refine ⟨?_, ?_, rfl, ?_, rfl⟩
  · rw [hmain]
    rfl
  · rw [hmain]
    simp [convertChaptersData]
  · simp only [convertTimeStringToSeconds]
    rw [if_pos hs]

/-- C6 witness: a three-entry list with a numeric time, a junk string
time and a missing-title entry is converted in order with length three,
and the two-colon-free string "1:2" converts to zero. -/
theorem convertChapters_multi_entry_witness :
    chaptersData (some [{ startTime := .num 0, endTime := .num 4, chapterTitle := some "A" },
                        { startTime := .str "bad", endTime := .other, chapterTitle := none },
                        { startTime := .num 4, endTime := .num 9, chapterTitle := some "B" }])
        (some 9)
      = [{ startTime := 0, endTime := 4, chapterTitle := some "A" },
         { startTime := 0, endTime := 0, chapterTitle := none },
         { startTime := 4, endTime := 9, chapterTitle := some "B" }]
    ∧ convertTimeStringToSeconds (.str "1:2") = 0 := by
  have h := convertChapters_multi_entry
    [{ startTime := .num 0, endTime := .num 4, chapterTitle := some "A" },
     { startTime := .str "bad", endTime := .other, chapterTitle := none },
     { startTime := .num 4, endTime := .num 9, chapterTitle := some "B" }]
    (some 9) 0 "1:2" (by decide) (by decide)
  refine ⟨?_, h.2.2.2.1⟩
  rw [h.1]
  rfl

/-! Helper lemmas for the quality-menu analysis. -/

theorem findIdx?_ge {α : Type _} (p : α → Bool) :
    ∀ (l : List α) (i j : Nat), List.findIdx? p l i = some j → i ≤ j := by
  intro l
  induction l with
  | nil => intro i j h; simp [List.findIdx?] at h
  | cons a t ih =>
    intro i j h
    rw [List.findIdx?_cons] at h
    by_cases hp : p a = true
    · rw [if_pos hp] at h
      simp at h
      omega
    · rw [if_neg hp] at h
      have := ih (i + 1) j h
      omega

theorem qidx_head_auto (t : List String) : qidx ("auto" :: t) "auto" = 0 := by
  simp only [qidx, List.findIdx?_cons]
  rw [if_pos (by decide : ("auto" == toLowerJS "auto") = true)]

theorem qidx_cons_ne_zero (a v : String) (t : List String)
    (h : (a == toLowerJS v) = false) : qidx (a :: t) v ≠ 0 := by
  simp only [qidx, List.findIdx?_cons, h, if_false]
  cases hf : List.findIdx? (fun s => s == toLowerJS v) t 1 with
  | none => simp
  | some j =>
    have := findIdx?_ge (fun s => s == toLowerJS v) t 1 j hf
    simp
    omega

theorem generateDesiredOrder_cons (m : MediaData) :
    ∃ t, generateDesiredOrder m = "auto" :: t := by
  simp only [generateDesiredOrder]
  cases m.data.bind (fun d => d.encodings_info) with
  | none => exact ⟨_, rfl⟩
  | some enc => exact ⟨_, rfl⟩

theorem normalizeQ_all_src (m : MediaData) (dOrder : List String) (arr : List QualityIn) :
    ((normalizeQ m dOrder arr).all (fun q => jsStrTruthy q.src)) = true := by
  simp only [normalizeQ]
  rw [List.all_eq_true]
  intro q hq
  have hq2 := mem_jsSort.mp hq
  exact (List.mem_filter.mp hq2).2

theorem normalizeQ_sorted (m : MediaData) (dOrder : List String) (arr : List QualityIn) :
    List.Pairwise (fun a b => qidx dOrder a.value ≤ qidx dOrder b.value)
      (normalizeQ m dOrder arr) := by
  simp only [normalizeQ]
  have htrans : ∀ (a b c : NormQuality),
      (fun a b => decide (qidx dOrder a.value ≤ qidx dOrder b.value)) a b = true →
      (fun a b => decide (qidx dOrder a.value ≤ qidx dOrder b.value)) b c = true →
      (fun a b => decide (qidx dOrder a.value ≤ qidx dOrder b.value)) a c = true := by
    intro a b c hab hbc
    simp only [decide_eq_true_eq] at hab hbc ⊢
    omega
  have htotal : ∀ (a b : NormQuality),
      ((fun a b => decide (qidx dOrder a.value ≤ qidx dOrder b.value)) a b
        || (fun a b => decide (qidx dOrder a.value ≤ qidx dOrder b.value)) b a) = true := by
    intro a b
    simp only [Bool.or_eq_true, decide_eq_true_eq]
    omega
  have h := sorted_jsSort htrans htotal
    ((arr.map (fun q =>
      let srcOpt := jsOrOpt (jsOrOpt q.src q.url) q.href
      { label := jsOrStr q.label (jsOrStr q.value "Auto")
        value := toLowerJS (jsOrStr q.value (jsOrStr q.label "auto"))
        src := srcOpt
        type := jsOrStr q.type (getMimeType srcOpt
          (m.data.bind (fun d => d.media_type))) : NormQuality })).filter
      (fun q => jsStrTruthy q.src))
  exact h.imp (by intro a b hab; simpa using hab)

theorem availableQualitiesBase_shape (m : MediaData) (uq : String) (dOrder : List String) :
    availableQualitiesBase m uq dOrder = []
    ∨ ∃ arr, availableQualitiesBase m uq dOrder = normalizeQ m dOrder arr := by
  simp only [availableQualitiesBase]
  split
  · right; exact ⟨_, rfl⟩
  · left; rfl

theorem availableQualitiesEnc_shape (m : MediaData) (uq : String) (dOrder : List String) :
    availableQualitiesEnc m uq dOrder = []
    ∨ ∃ arr, availableQualitiesEnc m uq dOrder = normalizeQ m dOrder arr := by
  simp only [availableQualitiesEnc]
  split
  · split
    · split
      · right; exact ⟨_, rfl⟩
      · exact availableQualitiesBase_shape m uq dOrder
    · exact availableQualitiesBase_shape m uq dOrder
  · exact availableQualitiesBase_shape m uq dOrder

theorem availableQualitiesRest_shape (m : MediaData) (uq : String) (dOrder : List String) :
    availableQualitiesRest m uq dOrder = []
    ∨ ∃ arr, availableQualitiesRest m uq dOrder = normalizeQ m dOrder arr := by
  simp only [availableQualitiesRest]
  split
  · split
    · split
      · right; exact ⟨_, rfl⟩
      · exact availableQualitiesEnc_shape m uq dOrder
    · exact availableQualitiesEnc_shape m uq dOrder
  · exact availableQualitiesEnc_shape m uq dOrder

theorem availableQualities_shape (m : MediaData) (uq : String) :
    availableQualities m uq = []
    ∨ ∃ arr, availableQualities m uq = normalizeQ m (generateDesiredOrder m) arr := by
  simp only [availableQualities]
  split
  · split
    · right; exact ⟨_, rfl⟩
    · exact availableQualitiesRest_shape m uq _
  · exact availableQualitiesRest_shape m uq _

/-- C2 counterexample: a descriptor with two valid encoded renditions
and an explicit qualities list yields the menu values
480p, 1080p, 1080p, 720p — it contains a duplicate value, does not list
Auto first although multi-rendition sources exist, and puts 1080p
before 720p, violating ascending numeric order. -/
theorem availableQualities_claim_counterexample :
    (availableQualities mediaFixtureCex "auto").map (fun q => q.value)
      = ["480p", "1080p", "1080p", "720p"]
    ∧ ¬ ((availableQualities mediaFixtureCex "auto").map (fun q => q.value)).Nodup
    ∧ (availableQualities mediaFixtureCex "auto").head?.map (fun q => q.value) ≠ some "auto"
    ∧ 1 < (validEncodingKeys
        [("480", { h264 := some { url := some "/enc/480.mp4" } }),
         ("1080", { h264 := some { url := some "/enc/1080.mp4" } })]).length := by
  exact ⟨by decide, by decide, by decide, by decide⟩

/-- Head of the normalized quality menu when the input list starts with
an Auto entry that has a truthy source and whose normalized value is
auto, while every other entry normalizes to a value ranked nonzero. -/
theorem normalizeQ_head_auto (m : MediaData) (dOrder : List String) (t : List String)
    (ht : dOrder = "auto" :: t) (autoQ : QualityIn) (rest : List QualityIn)
    (hsrc : jsStrTruthy (jsOrOpt (jsOrOpt autoQ.src autoQ.url) autoQ.href) = true)
    (hval : toLowerJS (jsOrStr autoQ.value (jsOrStr autoQ.label "auto")) = "auto")
    (hrest : ∀ e ∈ rest,
      qidx dOrder (toLowerJS (jsOrStr e.value (jsOrStr e.label "auto"))) ≠ 0) :
    (normalizeQ m dOrder (autoQ :: rest)).head?.map (fun q => q.value) = some "auto" := by
  simp only [normalizeQ, List.map_cons]
  rw [List.filter_cons_of_pos (by simpa using hsrc)]
  have hh := jsSort_head_of_key (fun (x : NormQuality) => qidx dOrder x.value)
    ((fun q : QualityIn =>
      let srcOpt := jsOrOpt (jsOrOpt q.src q.url) q.href
      { label := jsOrStr q.label (jsOrStr q.value "Auto")
        value := toLowerJS (jsOrStr q.value (jsOrStr q.label "auto"))
        src := srcOpt
        type := jsOrStr q.type (getMimeType srcOpt
          (m.data.bind (fun d => d.media_type))) : NormQuality }) autoQ)
    (((rest.map (fun q : QualityIn =>
      let srcOpt := jsOrOpt (jsOrOpt q.src q.url) q.href
      { label := jsOrStr q.label (jsOrStr q.value "Auto")
        value := toLowerJS (jsOrStr q.value (jsOrStr q.label "auto"))
        src := srcOpt
        type := jsOrStr q.type (getMimeType srcOpt
          (m.data.bind (fun d => d.media_type))) : NormQuality })).filter
      (fun q => jsStrTruthy q.src)))
    (by
      show qidx dOrder (toLowerJS (jsOrStr autoQ.value (jsOrStr autoQ.label "auto"))) = 0
      rw [hval, ht]
      exact qidx_head_auto t)
    (by
      intro x hx
      have hx2 := (List.mem_filter.mp hx).1
      rcases List.mem_map.mp hx2 with ⟨e, he, hfe⟩
      have hxval : x.value = toLowerJS (jsOrStr e.value (jsOrStr e.label "auto")) := by
        rw [← hfe]
      exact fun h0 => hrest e he (by rw [← hxval]; exact h0))
  have hh2 : (jsSort
      (fun a b => decide (qidx dOrder a.value ≤ qidx dOrder b.value))
      ((fun q : QualityIn =>
        let srcOpt := jsOrOpt (jsOrOpt q.src q.url) q.href
        { label := jsOrStr q.label (jsOrStr q.value "Auto")
          value := toLowerJS (jsOrStr q.value (jsOrStr q.label "auto"))
          src := srcOpt
          type := jsOrStr q.type (getMimeType srcOpt
            (m.data.bind (fun d => d.media_type))) : NormQuality }) autoQ ::
       ((rest.map (fun q : QualityIn =>
        let srcOpt := jsOrOpt (jsOrOpt q.src q.url) q.href
        { label := jsOrStr q.label (jsOrStr q.value "Auto")
          value := toLowerJS (jsOrStr q.value (jsOrStr q.label "auto"))
          src := srcOpt
          type := jsOrStr q.type (getMimeType srcOpt
            (m.data.bind (fun d => d.media_type))) : NormQuality })).filter
        (fun q => jsStrTruthy q.src)))).head?
      = some ((fun q : QualityIn =>
        let srcOpt := jsOrOpt (jsOrOpt q.src q.url) q.href
        { label := jsOrStr q.label (jsOrStr q.value "Auto")
          value := toLowerJS (jsOrStr q.value (jsOrStr q.label "auto"))
          src := srcOpt
          type := jsOrStr q.type (getMimeType srcOpt
            (m.data.bind (fun d => d.media_type))) : NormQuality }) autoQ) := hh
  rw [hh2]
  simpa using hval

/-- C2 amended: every quality-menu entry has a truthy source URI
(entries without one are dropped); the menu is stable-sorted ascending
by the position of each value in the canonical desired order (999,
hence last, for values outside it); and in the adaptive-manifest branch
(no explicit qualities list, HLS info with a truthy master file) the
first entry is Auto.  Duplicate values are not removed (see the
counterexample). -/
theorem availableQualities_amended (m : MediaData) (uq : String) :
    ((availableQualities m uq).all (fun q => jsStrTruthy q.src)) = true
    ∧ List.Pairwise (fun a b => qidx (generateDesiredOrder m) a.value
        ≤ qidx (generateDesiredOrder m) b.value) (availableQualities m uq)
    ∧ (∀ d h, m.data = some d → d.hls_info = some h → qualitiesJsonOf m = none →
        jsStrTruthy h.master_file = true →
        (availableQualities m uq).head?.map (fun q => q.value) = some "auto") := by
  refine ⟨?_, ?_, ?_⟩
  · rcases availableQualities_shape m uq with h | ⟨arr, h⟩
    · simp [h]
    · rw [h]
      exact normalizeQ_all_src m _ arr
  · rcases availableQualities_shape m uq with h | ⟨arr, h⟩
    · simp [h]
    · rw [h]
      exact normalizeQ_sorted m _ arr
  · intro d h hd hh hq hm
    have hbranch : availableQualities m uq
        = availableQualitiesRest m uq (generateDesiredOrder m) := by
      simp only [availableQualities, hq]
    rw [hbranch]
    have hms : h.master_file.getD "" ≠ "" := by
      cases hmf : h.master_file with
      | none => rw [hmf] at hm; simp [jsStrTruthy] at hm
      | some ms =>
        rw [hmf] at hm
        simp only [jsStrTruthy_some_iff] at hm
        simpa using hm
    have hsrc_ne : m.siteUrl ++ h.master_file.getD "" ≠ "" :=
      string_append_ne_empty_of_right _ _ hms
    simp only [availableQualitiesRest, hd, hh, if_pos hm]
    rcases generateDesiredOrder_cons m with ⟨t, ht⟩
    apply normalizeQ_head_auto m (generateDesiredOrder m) t ht
    · simp [jsOrOpt, jsStrTruthy, hsrc_ne]
    · show toLowerJS (jsOrStr (some "auto") (jsOrStr (some "Auto") "auto")) = "auto"
      decide
    · intro e he
      rcases List.mem_map.mp he with ⟨e1, _, hfe1⟩
      have hv : toLowerJS (jsOrStr e.value (jsOrStr e.label "auto"))
          = toLowerJS (jsReplaceFirst e1.1 "_playlist" ++ "p") := by
        rw [← hfe1]
        simp only
        rw [jsOrStr_some_of_ne _ _ (string_append_ne_empty_of_right _ "p" (by decide))]
      rw [hv, ht]
      apply qidx_cons_ne_zero
      rw [beq_eq_false_iff_ne]
      intro hcontra
      exact toLower_twice_append_p_ne_auto (jsReplaceFirst e1.1 "_playlist") hcontra.symm

/-- C2 amended witness: on the HLS fixture every entry has a source,
the menu is sorted by the canonical key, and Auto is first. -/
theorem availableQualities_amended_witness :
    ((availableQualities mediaFixtureHls "auto").all (fun q => jsStrTruthy q.src)) = true
    ∧ List.Pairwise (fun a b => qidx (generateDesiredOrder mediaFixtureHls) a.value
        ≤ qidx (generateDesiredOrder mediaFixtureHls) b.value)
        (availableQualities mediaFixtureHls "auto")
    ∧ (availableQualities mediaFixtureHls "auto").head?.map (fun q => q.value)
        = some "auto" := by
  have h := availableQualities_amended mediaFixtureHls "auto"
  exact ⟨h.1, h.2.1, h.2.2 _ hlsFixture rfl rfl rfl (by decide)⟩

/-- The single-entry case of `hasRealChapters`: the chapter is rejected
exactly when it is generic and spans a known positive duration within
one second, or when no positive duration is known, the start is zero
and the title is generic. -/
theorem hasRealChapters_single_false_iff (c : RawChapter) (vd : Option ℚ) :
    hasRealChapters [c] vd = false ↔
      ((isGenericTitleB c = true ∧ ∃ d, vd = some d ∧ 0 < d ∧
          convertTimeStringToSeconds c.startTime ≤ 1 ∧
          |convertTimeStringToSeconds c.endTime - d| ≤ 1)
        ∨ ((∀ d, vd = some d → d ≤ 0) ∧
            convertTimeStringToSeconds c.startTime = 0 ∧ isGenericTitleB c = true)) := by
  cases vd with
  | none =>
    simp only [hasRealChapters]
    by_cases hz : convertTimeStringToSeconds c.startTime = 0 ∧ isGenericTitleB c = true
    · rw [if_pos hz]
      simp [hz.1, hz.2]
    · rw [if_neg hz]
      simp only [Bool.true_eq_false]
      constructor
      · intro hf; exact hf.elim
      · rintro (⟨_, d, hd, _⟩ | ⟨_, h1, h2⟩)
        · exact absurd hd (by simp)
        · exact absurd ⟨h1, h2⟩ hz
  | some d =>
    simp only [hasRealChapters]
    by_cases hdpos : 0 < d
    · rw [if_pos hdpos]
      by_cases hfull : convertTimeStringToSeconds c.startTime ≤ 1
          ∧ |convertTimeStringToSeconds c.endTime - d| ≤ 1
      · by_cases hgen : isGenericTitleB c = true
        · rw [if_pos ⟨hfull, hgen⟩]
          simp only [true_iff]
          left
          exact ⟨hgen, d, rfl, hdpos, hfull.1, hfull.2⟩
        · rw [if_neg (by tauto), if_neg (by tauto)]
          by_cases hz : convertTimeStringToSeconds c.startTime = 0
              ∧ isGenericTitleB c = true
          · exact absurd hz.2 hgen
          · rw [if_neg hz]
            simp only [Bool.true_eq_false, false_iff]
            rintro (⟨hg, _⟩ | ⟨_, _, hg⟩) <;> exact hgen hg
      · rw [if_neg (by tauto), if_pos (by tauto)]
        simp only [Bool.true_eq_false, false_iff]
        rintro (⟨_, d2, hd2, _, h1, h2⟩ | ⟨hle, _, _⟩)
        · injection hd2 with hd2
          subst hd2
          exact hfull ⟨h1, h2⟩
        · exact absurd (hle d rfl) (by exact fun hcon => absurd hdpos (not_lt.mpr hcon))
    · rw [if_neg hdpos]
      by_cases hz : convertTimeStringToSeconds c.startTime = 0 ∧ isGenericTitleB c = true
      · rw [if_pos hz]
        simp only [true_iff]
        right
        refine ⟨?_, hz.1, hz.2⟩
        intro d2 hd2
        injection hd2 with hd2
        subst hd2
        exact le_of_not_lt hdpos
      · rw [if_neg hz]
        simp only [Bool.true_eq_false, false_iff]
        rintro (⟨_, d2, hd2, hpos, _⟩ | ⟨_, h1, h2⟩)
        · injection hd2 with hd2
          subst hd2
          exact hdpos hpos
        · exact hz ⟨h1, h2⟩

/-- C3: for a one-entry raw chapter list the normalization result is
empty precisely when the entry is generic and spans the whole known
positive duration within one second of tolerance, or when the duration
is unknown or non-positive, the start time is exactly zero and the
title is generic; in every other case the entry is kept. -/
theorem chaptersData_single_entry_iff (c : RawChapter) (D : Option ℚ) :
    chaptersData (some [c]) D = [] ↔
      ((isGenericTitleB c = true ∧ ∃ d, jsNumOrNull D = some d ∧ 0 < d ∧
          convertTimeStringToSeconds c.startTime ≤ 1 ∧
          |convertTimeStringToSeconds c.endTime - d| ≤ 1)
        ∨ ((∀ d, jsNumOrNull D = some d → d ≤ 0) ∧
            convertTimeStringToSeconds c.startTime = 0 ∧ isGenericTitleB c = true)) := by
  have hconv : convertChaptersData [c] ≠ [] := by
    simp [convertChaptersData]
  rw [← hasRealChapters_single_false_iff c (jsNumOrNull D)]
  simp only [chaptersData, List.length_cons, List.length_nil]
  rw [if_pos (by omega)]
  by_cases hrc : hasRealChapters [c] (jsNumOrNull D) = true
  · rw [if_pos hrc]
    simp [hconv, hrc]
  · rw [if_neg hrc]
    simp only [Bool.not_eq_true] at hrc
    simp [hrc]

/-- Every early return of the HLS block is a singleton list. -/
theorem getVideoSourcesHls_ne_nil (m : MediaData) (q : String) (r : List SourceCandidate)
    (h : getVideoSourcesHls m q = some r) : r ≠ [] := by
  simp only [getVideoSourcesHls] at h
  split at h
  · simp at h
  · split at h
    · simp at h
    · split at h
      · injection h with h
        subst h
        simp
      · split at h
        · rename_i r2 heq
          injection h with h
          subst h
          split at heq
          · split at heq
            · injection heq with heq
              subst heq
              simp
            · simp at heq
          · simp at heq
        · split at h
          · injection h with h
            subst h
            simp
          · simp at h

/-- Every early return of the encoded-renditions block is non-empty. -/
theorem getVideoSourcesEnc_ne_nil (m : MediaData) (q : String) (r : List SourceCandidate)
    (h : getVideoSourcesEnc m q = some r) : r ≠ [] := by
  simp only [getVideoSourcesEnc] at h
  split at h
  · simp at h
  · split at h
    · simp at h
    · split at h
      · rename_i r2 heq
        injection h with h
        subst h
        split at heq
        · split at heq
          · injection heq with heq
            subst heq
            simp
          · simp at heq
        · simp at heq
      · split at h
        · rename_i hlen
          injection h with h
          subst h
          intro hnil
          rw [hnil] at hlen
          simp at hlen
        · simp at h

/-- A key built as a playlist lookup never collides with the
master-file key. -/
theorem append_playlist_ne_master (x : String) : x ++ "_playlist" ≠ "master_file" := by
  intro h
  have hd := congrArg (fun s => s.data.reverse) h
  simp only [String.data_append, List.reverse_append] at hd
  have h1 : "_playlist".data.reverse = ['t', 's', 'i', 'l', 'y', 'a', 'l', 'p', '_'] := by decide
  have h2 : "master_file".data.reverse = ['e', 'l', 'i', 'f', '_', 'r', 'e', 't', 's', 'a', 'm'] := by decide
  rw [h1, h2] at hd
  have := congrArg List.head? hd
  simp at this

/-- When the HLS info offers no truthy master file and no truthy entry
value, the HLS block falls through. -/
theorem getVideoSourcesHls_none_of_noSource (m : MediaData) (q : String) (d : MediaItemData)
    (hd : m.data = some d) (hns : hlsHasNoSource d = true) : getVideoSourcesHls m q = none := by
  cases hh : d.hls_info with
  | none => simp [getVideoSourcesHls, hd, hh]
  | some h =>
    simp only [hlsHasNoSource, hh, Bool.and_eq_true, Bool.not_eq_true'] at hns
    obtain ⟨hmf, hall⟩ := hns
    have hlook : jsStrTruthy (hlsLookup h (stripP q ++ "_playlist")) = false := by
      simp only [hlsLookup]
      rw [if_neg (by
        simp only [beq_iff_eq]
        exact append_playlist_ne_master (stripP q))]
      cases hf : h.entries.find? (fun e => e.1 == stripP q ++ "_playlist") with
      | none => rfl
      | some p =>
        have hp := List.mem_of_find?_eq_some hf
        have := (List.all_eq_true.mp hall) p hp
        simpa using this
    simp only [getVideoSourcesHls, hd, hh]
    rw [if_neg (by simp [hmf])]
    split
    · rename_i r heq
      exfalso
      split at heq
      · split at heq
        · rename_i htru
          rw [hlook] at htru
          exact absurd htru (by simp)
        · simp at heq
      · simp at heq
    · rw [if_neg (by simp [hmf])]

/-- When no encoding key has a truthy url chain, the encoded-renditions
block falls through. -/
theorem getVideoSourcesEnc_none_of_noSource (m : MediaData) (q : String) (d : MediaItemData)
    (hd : m.data = some d) (hns : encHasNoSource d = true) : getVideoSourcesEnc m q = none := by
  cases he : d.encodings_info with
  | none => simp [getVideoSourcesEnc, hd, he]
  | some enc =>
    simp only [encHasNoSource, he] at hns
    have hnotruthy : ∀ k, encUrlTruthy enc k = false := by
      intro k
      cases hf : enc.find? (fun e => e.1 == k) with
      | none =>
        simp [encUrlTruthy, encUrl, encLookup, hf, jsStrTruthy]
      | some p =>
        have hp := List.mem_of_find?_eq_some hf
        have hpk : p.1 = k := by
          have := List.find?_some hf
          simpa [beq_iff_eq] using this
        have := (List.all_eq_true.mp hns) p hp
        rw [hpk] at this
        simpa using this
    have hvalid : validEncodingKeys enc = [] := by
      simp only [validEncodingKeys]
      rw [List.filter_eq_nil_iff]
      intro k _
      simp [hnotruthy k]
    simp only [getVideoSourcesEnc, hd, he]
    split
    · rename_i r heq
      exfalso
      split at heq
      · split at heq
        · rename_i htru
          rw [hnotruthy (stripP q)] at htru
          exact absurd htru (by simp)
        · simp at heq
      · simp at heq
    · rw [hvalid]
      have hsortnil : jsSort encSortDesc ([] : List String) = [] := rfl
      rw [hsortnil]
      simp

/-- C4: the source resolution always returns a non-empty list, and when
no adaptive manifest, no encoded rendition and no canonical media URL
is available it returns exactly the hard-coded default placeholder. -/
theorem getVideoSources_nonempty_default (M : MediaData) (Q : String) :
    getVideoSources M Q ≠ []
    ∧ (noPlayableSource M = true → getVideoSources M Q = [defaultVideoSource]) := by
  constructor
  · simp only [getVideoSources]
    split
    · rename_i r hr
      exact getVideoSourcesHls_ne_nil M Q r hr
    · split
      · rename_i r hr
        exact getVideoSourcesEnc_ne_nil M Q r hr
      · split
        · split
          · simp
          · simp
        · simp
  · intro hns
    simp only [noPlayableSource] at hns
    cases hd : M.data with
    | none =>
      have h1 : getVideoSourcesHls M Q = none := by
        simp [getVideoSourcesHls, hd]
      have h2 : getVideoSourcesEnc M Q = none := by
        simp [getVideoSourcesEnc, hd]
      simp [getVideoSources, h1, h2, hd]
    | some d =>
      rw [hd] at hns
      simp only [Bool.and_eq_true, Bool.not_eq_true'] at hns
      obtain ⟨⟨ha, hb⟩, hc⟩ := hns
      have h1 := getVideoSourcesHls_none_of_noSource M Q d hd ha
      have h2 := getVideoSourcesEnc_none_of_noSource M Q d hd hb
      simp only [getVideoSources, h1, h2, hd]
      rw [if_neg (by simp [hc])]

/-- C4 witness: a descriptor with no payload resolves to the single
hard-coded placeholder source, in particular a non-empty list. -/
theorem getVideoSources_nonempty_default_witness :
    getVideoSources mediaFixtureEmpty "auto" = [defaultVideoSource]
    ∧ getVideoSources mediaFixtureEmpty "auto" ≠ [] := by
  have h := getVideoSources_nonempty_default mediaFixtureEmpty "auto"
  exact ⟨h.2 (by decide), h.1⟩

/-- C5: with no adaptive manifest and with encoded renditions present
(non-empty valid keys, each a digit string), a discrete quality with a
matching rendition resolves to exactly that rendition, and otherwise
(auto, or no match) the resolver returns the full ladder: one candidate
per valid rendition, labelled by its key, sorted by descending numeric
resolution. -/
theorem getVideoSources_encodings_branch (M : MediaData) (Q : String) (d : MediaItemData)
    (enc : List (String × EncodingEntry))
    (hd : M.data = some d) (hh : d.hls_info = none) (he : d.encodings_info = some enc)
    (hne : validEncodingKeys enc ≠ [])
    (hdig : ∀ k ∈ validEncodingKeys enc, k.data ≠ [] ∧ ∀ c ∈ k.data, c.isDigit = true) :
    ((Q ≠ "auto" ∧ encUrlTruthy enc (stripP Q) = true) →
      getVideoSources M Q
        = [{ src := (encUrl enc (stripP Q)).getD "",
             type := getMimeType (encUrl enc (stripP Q)) d.media_type,
             label := some (stripP Q ++ "p") }])
    ∧ ((Q = "auto" ∨ encUrlTruthy enc (stripP Q) = false) →
      (getVideoSources M Q).length = (validEncodingKeys enc).length
      ∧ ((getVideoSources M Q).map (fun c => c.label)).Perm
          ((validEncodingKeys enc).map (fun k => some (k ++ "p")))
      ∧ List.Pairwise (fun a b => (parseIntJS (b.label.getD "")).getD 0
          ≤ (parseIntJS (a.label.getD "")).getD 0) (getVideoSources M Q)) := by
  have hhls : getVideoSourcesHls M Q = none := by
    simp [getVideoSourcesHls, hd, hh]
  constructor
  · rintro ⟨hQ, htr⟩
    have hQb : (Q != "auto") = true := by simp [bne_iff_ne, hQ]
    have henc : getVideoSourcesEnc M Q
        = some [{ src := (encUrl enc (stripP Q)).getD "",
                  type := getMimeType (encUrl enc (stripP Q)) d.media_type,
                  label := some (stripP Q ++ "p") }] := by
      simp only [getVideoSourcesEnc, hd, he]
      split
      · rename_i r heq
        rw [if_pos hQb, if_pos htr] at heq
        injection heq with heq
        subst heq
        rfl
      · rename_i heq
        rw [if_pos hQb, if_pos htr] at heq
        simp at heq
    simp [getVideoSources, hhls, henc]
  · intro hB
    have hlenpos : 0 < (validEncodingKeys enc).length := List.length_pos.mpr hne
    have henc : getVideoSourcesEnc M Q
        = some ((jsSort encSortDesc (validEncodingKeys enc)).map (fun quality =>
            { src := (encUrl enc quality).getD "",
              type := getMimeType (encUrl enc quality) d.media_type,
              label := some (quality ++ "p") })) := by
      simp only [getVideoSourcesEnc, hd, he]
      split
      · rename_i r heq
        exfalso
        split at heq
        · rename_i hQne
          split at heq
          · rename_i htru
            rcases hB with hQ | hfalse
            · rw [hQ] at hQne
              simp at hQne
            · rw [hfalse] at htru
              exact absurd htru (by simp)
          · simp at heq
        · simp at heq
      · rw [if_pos (by
          rw [List.length_map, length_jsSort]
          exact hlenpos)]
    have hmain : getVideoSources M Q
        = (jsSort encSortDesc (validEncodingKeys enc)).map (fun quality =>
            { src := (encUrl enc quality).getD "",
              type := getMimeType (encUrl enc quality) d.media_type,
              label := some (quality ++ "p") }) := by
      simp [getVideoSources, hhls, henc]
    have hsortmem : ∀ k ∈ jsSort encSortDesc (validEncodingKeys enc),
        k ∈ validEncodingKeys enc := fun k hk => mem_jsSort.mp hk
    refine ⟨?_, ?_, ?_⟩
    · rw [hmain, List.length_map, length_jsSort]
    · rw [hmain, List.map_map]
      have hfn : ((fun c : SourceCandidate => c.label) ∘ (fun quality =>
          { src := (encUrl enc quality).getD "",
            type := getMimeType (encUrl enc quality) d.media_type,
            label := some (quality ++ "p") : SourceCandidate }))
          = fun k => some (k ++ "p") := rfl
      rw [hfn]
      exact (jsSort_perm encSortDesc (validEncodingKeys enc)).map _
    · rw [hmain]
      have hcong : jsSort encSortDesc (validEncodingKeys enc)
          = jsSort (fun a b => decide ((parseIntJS b).getD 0 ≤ (parseIntJS a).getD 0))
              (validEncodingKeys enc) := by
        apply jsSort_congr
        intro a ha b hb
        obtain ⟨hane, hadig⟩ := hdig a ha
        obtain ⟨hbne, hbdig⟩ := hdig b hb
        simp only [encSortDesc]
        rw [parseIntJS_digits a hane hadig, parseIntJS_digits b hbne hbdig]
        simp
      rw [hcong]
      have htrans : ∀ (a b c : String),
          decide ((parseIntJS b).getD 0 ≤ (parseIntJS a).getD 0) = true →
          decide ((parseIntJS c).getD 0 ≤ (parseIntJS b).getD 0) = true →
          decide ((parseIntJS c).getD 0 ≤ (parseIntJS a).getD 0) = true := by
        intro a b c h1 h2
        simp only [decide_eq_true_eq] at h1 h2 ⊢
        omega
      have htotal : ∀ (a b : String),
          (decide ((parseIntJS b).getD 0 ≤ (parseIntJS a).getD 0)
            || decide ((parseIntJS a).getD 0 ≤ (parseIntJS b).getD 0)) = true := by
        intro a b
        simp only [Bool.or_eq_true, decide_eq_true_eq]
        omega
      have hsorted := sorted_jsSort htrans htotal (validEncodingKeys enc)
      rw [List.pairwise_map]
      apply hsorted.imp_of_mem
      intro a b ha hb hab
      obtain ⟨hane, hadig⟩ := hdig a (mem_jsSort.mp ha)
      obtain ⟨hbne, hbdig⟩ := hdig b (mem_jsSort.mp hb)
      simp only [decide_eq_true_eq] at hab
      simp only [Option.getD_some]
      rw [parseIntJS_append_p a hane hadig, parseIntJS_append_p b hbne hbdig]
      rw [parseIntJS_digits a hane hadig, parseIntJS_digits b hbne hbdig] at hab
      simpa using hab

/-- C5 witness: against renditions 240, 480 and 720, requesting 480p
returns exactly that rendition, while requesting the absent 1080p
returns the full descending ladder 720p, 480p, 240p. -/
theorem getVideoSources_encodings_branch_witness :
    getVideoSources mediaFixtureEnc "480p"
      = [{ src := "/enc/480.mp4", type := "video/mp4", label := some "480p" }]
    ∧ (getVideoSources mediaFixtureEnc "1080p").map (fun c => c.label)
      = [some "720p", some "480p", some "240p"]
    ∧ (getVideoSources mediaFixtureEnc "1080p").length = 3
    ∧ List.Pairwise (fun a b => (parseIntJS (b.label.getD "")).getD 0
        ≤ (parseIntJS (a.label.getD "")).getD 0) (getVideoSources mediaFixtureEnc "1080p") := by
  have hA := (getVideoSources_encodings_branch mediaFixtureEnc "480p" _ encFixture
    rfl rfl rfl (by decide) (by decide)).1 ⟨by decide, by decide⟩
  have hB := (getVideoSources_encodings_branch mediaFixtureEnc "1080p" _ encFixture
    rfl rfl rfl (by decide) (by decide)).2 (Or.inr (by decide))
  refine ⟨?_, by decide, ?_, hB.2.2⟩
  · rw [hA]
    decide
  · rw [hB.1]
    decide

/-- C3 witness: a single generic segment spanning the whole 10-second
video is suppressed, while the same interval with the non-generic title
Intro is kept. -/
theorem chaptersData_single_entry_iff_witness :
    chaptersData (some [⟨.num 0, .num 10, some "segment"⟩]) (some 10) = []
    ∧ chaptersData (some [⟨.num 0, .num 10, some "Intro"⟩]) (some 10) ≠ [] := by
  constructor
  · apply (chaptersData_single_entry_iff ⟨.num 0, .num 10, some "segment"⟩ (some 10)).mpr
    left
    refine ⟨by decide, 10, ?_, ?_, ?_, ?_⟩
    · show (if (10 : ℚ) = 0 then none else some 10) = some 10
      decide
    · decide
    · show (0 : ℚ) ≤ 1
      decide
    · show |(10 : ℚ) - 10| ≤ 1
      simp
  · intro h
    rcases (chaptersData_single_entry_iff ⟨.num 0, .num 10, some "Intro"⟩
      (some 10)).mp h with ⟨hg, _⟩ | ⟨_, _, hg⟩ <;> exact absurd hg (by decide)

/-- C7 witness: a stored preference en matches the track tag en-US and,
symmetrically, a stored en-US matches the track tag en. -/
theorem matchLang_characterization_witness :
    matchLang { srclang := some "en-US", language := none } "en" = true
    ∧ matchLang { srclang := some "en", language := none } "en-US" = true := by
  have h := matchLang_characterization "en" "en-US"
  have h1 : matchLang { srclang := some "en-US", language := none } "en" = true :=
    h.1.mpr (by decide)
  exact ⟨h1, by rw [← h.2]; exact h1⟩
